import Mathlib

/-!
Shallow embedding and verification of the core of TStarBot1:
the A2C agent (`src/agents/a2c_agent.py`), the parallel environment
manager/worker (`src/envs/parallel_env.py`) and the Zerg observation
wrapper (`src/wrappers/zerg_observation_wrappers.py`).

Machine real numbers are modelled by exact rationals `ℚ`; tensors of
shape `[N]` (one slot per environment replica) are modelled as functions
`ι → ℚ` for an index type `ι`, so that elementwise torch operations
become pointwise operations.  Transcendental library functions
(`exp`, `log`, `log10`) that the code calls are kept as abstract
function parameters, since none of the verified claims depends on their
analytic properties.
-/

namespace TStar

/-! ## `A2CAgent._boostrap` (src/agents/a2c_agent.py)

The Python body is

    r = last_value.data.squeeze() * (1 - done_mb[-1])
    for reward, done in reversed(zip(reward_mb, done_mb)):
        r *= 1 - done
        r = self._discount * r + reward
        target_value.append(r.unsqueeze(1))
    return target_value[::-1]

All tensor operations are elementwise over the replica axis, so the
batched embedding acts pointwise at every replica index `i : ι`.
`unsqueeze(1)` only changes the tensor shape and is dropped.
-/

/-- Loop body of `_boostrap`, batched over the replica index `ι`:
processes the reversed `(reward, done)` pairs, carrying the running
return `r` and emitting each updated value (in reversed time order). -/
def boostrapLoop (ι : Type) (discount : ℚ) :
    List ((ι → ℚ) × (ι → ℚ)) → (ι → ℚ) → List (ι → ℚ)
  | [], _ => []
  | (reward, done) :: rest, r =>
    let r1 : ι → ℚ := fun i => discount * (r i * (1 - done i)) + reward i
    r1 :: boostrapLoop ι discount rest r1

/-- `A2CAgent._boostrap`, batched over the replica index `ι`.
`last_value` is the critic's value estimate on the observation after the
rollout (the network evaluation itself is not part of this function's
arithmetic).  Python's `done_mb[-1]` faults on an empty list; the claims
only concern nonempty rollouts, and the empty case returns `[]`. -/
def boostrap (ι : Type) (discount : ℚ) (reward_mb done_mb : List (ι → ℚ))
    (last_value : ι → ℚ) : List (ι → ℚ) :=
  match done_mb.getLast? with
  | none => []
  | some dLast =>
    (boostrapLoop ι discount ((reward_mb.zip done_mb).reverse)
      (fun i => last_value i * (1 - dLast i))).reverse

/-- Scalar (single replica) instance of the `_boostrap` loop; the batched
loop is this recursion at every replica index. -/
def boostrapLoopS (discount : ℚ) : List (ℚ × ℚ) → ℚ → List ℚ
  | [], _ => []
  | (reward, done) :: rest, r =>
    let r1 : ℚ := discount * (r * (1 - done)) + reward
    r1 :: boostrapLoopS discount rest r1

/-- Scalar (single replica) instance of `_boostrap`. -/
def boostrapS (discount : ℚ) (reward_mb done_mb : List ℚ)
    (last_value : ℚ) : List ℚ :=
  match done_mb.getLast? with
  | none => []
  | some dLast =>
    (boostrapLoopS discount ((reward_mb.zip done_mb).reverse)
      (last_value * (1 - dLast))).reverse

/-- Modelled from the spec: loop of the backward recursion
`R := r_t + discount * R * (1 - d_t)` as written in §4.5 of the spec,
to be compared with the code's `boostrapLoopS`. -/
def specLoopS (discount : ℚ) : List (ℚ × ℚ) → ℚ → List ℚ
  | [], _ => []
  | (reward, done) :: rest, r =>
    let r1 : ℚ := reward + discount * r * (1 - done)
    r1 :: specLoopS discount rest r1

/-- Modelled from the spec: the backward recursion of §4.5, starting
from `R = V_T * (1 - d_{T-1})` and emitting `target[t] = R` for
`t = T-1` down to `0`. -/
def specBoostrapS (discount : ℚ) (rewards dones : List ℚ) (vT : ℚ) : List ℚ :=
  match dones.getLast? with
  | none => []
  | some dLast =>
    (specLoopS discount ((rewards.zip dones).reverse)
      (vT * (1 - dLast))).reverse

theorem boostrapLoopS_eq_specLoopS (discount : ℚ) :
    ∀ (pairs : List (ℚ × ℚ)) (r : ℚ),
      boostrapLoopS discount pairs r = specLoopS discount pairs r := by
  intro pairs
  induction pairs with
  | nil => intro r; rfl
  | cons p rest ih =>
    intro r
    obtain ⟨reward, done⟩ := p
    simp only [boostrapLoopS, specLoopS]
    have h : discount * (r * (1 - done)) + reward
        = reward + discount * r * (1 - done) := by ring
    rw [h, ih]

theorem boostrapS_eq_specBoostrapS (discount : ℚ) (rewards dones : List ℚ)
    (vT : ℚ) :
    boostrapS discount rewards dones vT = specBoostrapS discount rewards dones vT := by
  unfold boostrapS specBoostrapS
  cases dones.getLast? with
  | none => rfl
  | some dLast =>
    simp only [boostrapLoopS_eq_specLoopS]

/-- C1: `_boostrap` implements the spec's backward recursion
`R := V_T*(1-d_{T-1}); for t = T-1 downto 0: R := r_t + discount*R*(1-d_t);
target[t] := R` (for done entries in `{0,1}`), and on the concrete
scenario with 2 environments, `T = 3`, `discount = 0.9`, step-major
rewards `[[1,0],[0,1],[1,1]]`, dones `[[0,0],[0,0],[1,0]]` and
`V_T = [5,5]` it returns exactly `[[1.81,5.355],[0.9,5.95],[1,5.5]]`. -/
theorem boostrap_spec_recursion_and_scenario :
    (∀ (discount : ℚ) (rewards dones : List ℚ) (vT : ℚ),
      (∀ d ∈ dones, d = 0 ∨ d = 1) →
      boostrapS discount rewards dones vT
        = specBoostrapS discount rewards dones vT) ∧
    boostrap (Fin 2) (9/10)
      [![1, 0], ![0, 1], ![1, 1]]
      [![0, 0], ![0, 0], ![1, 0]]
      ![5, 5]
      = [![1.81, 5.355], ![0.9, 5.95], ![1, 5.5]] := by
  constructor
  · intro discount rewards dones vT _
    exact boostrapS_eq_specBoostrapS discount rewards dones vT
  · dsimp only [boostrap, boostrapLoop, List.getLast?, List.zip, List.zipWith,
      List.reverse, List.reverseAux]
    simp only [List.cons.injEq, and_true]
    refine ⟨?_, ?_, ?_⟩ <;> funext i <;> fin_cases i <;>
      norm_num [Matrix.cons_val_zero, Matrix.cons_val_one, Matrix.head_cons]

/-- Witness for C1 at a concrete input with `{0,1}` dones. -/
theorem boostrap_spec_recursion_witness :
    boostrapS (1/2) [2, 3] [0, 1] 7 = specBoostrapS (1/2) [2, 3] [0, 1] 7 :=
  boostrap_spec_recursion_and_scenario.1 (1/2) [2, 3] [0, 1] 7 (by
    intro d hd
    simp only [List.mem_cons, List.mem_singleton] at hd
    rcases hd with h | h | h
    · exact Or.inl h
    · exact Or.inr h
    · cases h)

theorem boostrapLoop_zero_discount (ι : Type) :
    ∀ (pairs : List ((ι → ℚ) × (ι → ℚ))) (r : ι → ℚ),
      boostrapLoop ι 0 pairs r = pairs.map Prod.fst := by
  intro pairs
  induction pairs with
  | nil => intro r; rfl
  | cons p rest ih =>
    intro r
    obtain ⟨reward, done⟩ := p
    have h : (fun i => (0 : ℚ) * (r i * (1 - done i)) + reward i) = reward := by
      funext i; ring
    simp only [boostrapLoop, List.map_cons]
    rw [h, ih]

/-- C5: with `discount = 0`, `_boostrap` returns exactly the reward
sequence: `target[t] == reward[t]` for every step `t` and every replica,
for every done sequence and terminal value estimate. -/
theorem boostrap_zero_discount (ι : Type) (reward_mb done_mb : List (ι → ℚ))
    (last_value : ι → ℚ) (hne : done_mb ≠ [])
    (hlen : reward_mb.length = done_mb.length) :
    boostrap ι 0 reward_mb done_mb last_value = reward_mb := by
  cases h : done_mb.getLast? with
  | none => exact absurd (List.getLast?_eq_none_iff.mp h) hne
  | some dLast =>
    simp only [boostrap, h]
    rw [boostrapLoop_zero_discount, List.map_reverse, List.reverse_reverse,
      List.map_fst_zip reward_mb done_mb (le_of_eq hlen)]

/-- Witness for C5 at a concrete input. -/
theorem boostrap_zero_discount_witness :
    boostrap (Fin 1) 0 [![2], ![7]] [![1], ![0]] ![5] = [![2], ![7]] :=
  boostrap_zero_discount (Fin 1) [![2], ![7]] [![1], ![0]] ![5]
    (by simp) (by simp)

/-! ### Noninterference of `_boostrap` across an episode boundary (C4) -/

/-- Final accumulator value after running the `_boostrap` loop body over a
pair list (scalar form). -/
def loopFinalS (discount : ℚ) : List (ℚ × ℚ) → ℚ → ℚ
  | [], r => r
  | (reward, done) :: rest, r =>
    loopFinalS discount rest (discount * (r * (1 - done)) + reward)

theorem boostrapLoopS_append (discount : ℚ) :
    ∀ (xs ys : List (ℚ × ℚ)) (r : ℚ),
      boostrapLoopS discount (xs ++ ys) r
        = boostrapLoopS discount xs r
            ++ boostrapLoopS discount ys (loopFinalS discount xs r) := by
  intro xs
  induction xs with
  | nil => intro ys r; rfl
  | cons p rest ih =>
    intro ys r
    obtain ⟨reward, done⟩ := p
    simp only [List.cons_append, boostrapLoopS, loopFinalS, List.append_eq]
    rw [ih]

theorem boostrapLoopS_length (discount : ℚ) :
    ∀ (pairs : List (ℚ × ℚ)) (r : ℚ),
      (boostrapLoopS discount pairs r).length = pairs.length := by
  intro pairs
  induction pairs with
  | nil => intro r; rfl
  | cons p rest ih =>
    intro r
    obtain ⟨reward, done⟩ := p
    simp only [boostrapLoopS, List.length_cons]
    rw [ih]

/-- When the first pair processed by the loop carries `done = 1`, the
incoming accumulator is zeroed: the output is independent of it. -/
theorem boostrapLoopS_done_head (discount reward : ℚ) (ys : List (ℚ × ℚ))
    (r : ℚ) :
    boostrapLoopS discount ((reward, 1) :: ys) r
      = reward :: boostrapLoopS discount ys reward := by
  simp only [boostrapLoopS]
  have h : discount * (r * (1 - 1)) + reward = reward := by ring
  rw [h]

/-- Scalar noninterference for `_boostrap`: if `done` is `1` at step `t₀`,
targets up to `t₀` do not depend on later rewards or on the terminal
value estimate. -/
theorem boostrapS_noninterference (discount : ℚ) (r₁ r₂ dn : List ℚ)
    (v₁ v₂ : ℚ) (t₀ : ℕ)
    (hlen₁ : r₁.length = dn.length) (hlen₂ : r₂.length = dn.length)
    (ht : t₀ + 1 < dn.length) (hd : dn.getD t₀ 0 = 1)
    (hr : r₁.take (t₀ + 1) = r₂.take (t₀ + 1)) :
    (boostrapS discount r₁ dn v₁).take (t₀ + 1)
      = (boostrapS discount r₂ dn v₂).take (t₀ + 1) := by
  have hdn_ne : dn ≠ [] := by
    intro h; rw [h] at ht; exact absurd ht (by simp)
  obtain ⟨dLast, hLast⟩ : ∃ d, dn.getLast? = some d := by
    cases h : dn.getLast? with
    | none => exact absurd (List.getLast?_eq_none_iff.mp h) hdn_ne
    | some d => exact ⟨d, rfl⟩
  have ht₀ : t₀ < dn.length := Nat.lt_of_succ_lt ht
  -- the two zipped sequences share their first t₀+1 entries
  have hzip_take : ∀ (r : List ℚ), (r.zip dn).take (t₀ + 1)
      = (r.take (t₀ + 1)).zip (dn.take (t₀ + 1)) := by
    intro r
    rw [List.zip_eq_zipWith, List.zip_eq_zipWith, List.take_zipWith]
  -- split a zipped sequence at t₀+1 and push the split through reverse
  have key : ∀ (r : List ℚ), r.length = dn.length →
      r.take (t₀ + 1) = r₁.take (t₀ + 1) →
      ∀ v : ℚ,
      (boostrapS discount r dn v).take (t₀ + 1)
        = (boostrapLoopS discount (((r₁.take (t₀ + 1)).zip
            (dn.take (t₀ + 1))).reverse)
            (loopFinalS discount (((r.zip dn).drop (t₀ + 1)).reverse)
              (v * (1 - dLast)))).reverse := by
    intro r hlen htake v
    simp only [boostrapS, hLast]
    have hsplit : (r.zip dn).reverse
        = ((r.zip dn).drop (t₀ + 1)).reverse
            ++ ((r.zip dn).take (t₀ + 1)).reverse := by
      rw [← List.reverse_append, List.take_append_drop]
    rw [hsplit, boostrapLoopS_append, List.reverse_append]
    have hlen_take : (boostrapLoopS discount (((r.zip dn).take (t₀ + 1)).reverse)
        (loopFinalS discount (((r.zip dn).drop (t₀ + 1)).reverse)
          (v * (1 - dLast)))).reverse.length = t₀ + 1 := by
      rw [List.length_reverse, boostrapLoopS_length, List.length_reverse,
        List.length_take, List.length_zip, hlen, min_self]
      exact Nat.min_eq_left (Nat.le_of_lt ht)
    rw [List.take_left' hlen_take, hzip_take, htake]
  have hz₁ := key r₁ hlen₁ rfl v₁
  have hz₂ := key r₂ hlen₂ hr.symm v₂
  rw [hz₁, hz₂]
  -- both sides run the loop on the same t₀+1 pairs, whose head (after
  -- reversal) carries done = 1, so the incoming accumulators are ignored
  have hr₁t : t₀ < r₁.length := by rw [hlen₁]; omega
  have e₁ : r₁.take (t₀ + 1) = r₁.take t₀ ++ [r₁.getD t₀ 0] := by
    rw [List.take_succ, List.getElem?_eq_getElem hr₁t,
      List.getD_eq_getElem r₁ 0 hr₁t]
    rfl
  have e₂ : dn.take (t₀ + 1) = dn.take t₀ ++ [(1 : ℚ)] := by
    rw [List.take_succ, List.getElem?_eq_getElem ht₀]
    have hval : dn[t₀] = (1 : ℚ) := by rw [← hd, List.getD_eq_getElem dn 0 ht₀]
    rw [hval]
    rfl
  have elen : (r₁.take t₀).length = (dn.take t₀).length := by
    rw [List.length_take, List.length_take,
      Nat.min_eq_left (Nat.le_of_lt hr₁t), Nat.min_eq_left (Nat.le_of_lt ht₀)]
  have erev : ((r₁.take (t₀ + 1)).zip (dn.take (t₀ + 1))).reverse
      = (r₁.getD t₀ 0, (1 : ℚ)) :: ((r₁.take t₀).zip (dn.take t₀)).reverse := by
    rw [e₁, e₂, List.zip_append elen, List.reverse_append]
    rfl
  rw [erev, boostrapLoopS_done_head, boostrapLoopS_done_head]

/-! Pointwise bridge: the batched `_boostrap` at replica `i` is the scalar
recursion on that replica's slice. -/

theorem boostrapLoop_apply (ι : Type) (i : ι) (discount : ℚ) :
    ∀ (pairs : List ((ι → ℚ) × (ι → ℚ))) (r : ι → ℚ),
      (boostrapLoop ι discount pairs r).map (fun v => v i)
        = boostrapLoopS discount
            (pairs.map (fun p => (p.1 i, p.2 i))) (r i) := by
  intro pairs
  induction pairs with
  | nil => intro r; rfl
  | cons p rest ih =>
    intro r
    obtain ⟨reward, done⟩ := p
    simp only [boostrapLoop, boostrapLoopS, List.map_cons]
    rw [ih]

theorem boostrap_apply (ι : Type) (i : ι) (discount : ℚ)
    (reward_mb done_mb : List (ι → ℚ)) (last_value : ι → ℚ) :
    (boostrap ι discount reward_mb done_mb last_value).map (fun v => v i)
      = boostrapS discount (reward_mb.map (fun v => v i))
          (done_mb.map (fun v => v i)) (last_value i) := by
  unfold boostrap boostrapS
  rw [List.getLast?_map]
  cases done_mb.getLast? with
  | none => rfl
  | some dLast =>
    simp only [Option.map_some']
    rw [List.map_reverse, boostrapLoop_apply, List.map_reverse]
    have hz : ((reward_mb.zip done_mb).map (fun p => (p.1 i, p.2 i)))
        = (reward_mb.map (fun v => v i)).zip (done_mb.map (fun v => v i)) := by
      rw [List.zip_map]
      rfl
    rw [hz]

/-- C4: two-run noninterference across an episode boundary.  If replica
`i` is done at step `t₀ < T-1` and two runs of `_boostrap` agree on
replica `i`'s rewards up to `t₀` (later rewards and the terminal value
estimates may differ), then the targets for replica `i` agree at every
step `t ≤ t₀`. -/
theorem boostrap_noninterference (ι : Type) (i : ι) (discount : ℚ)
    (reward₁ reward₂ done_mb : List (ι → ℚ)) (v₁ v₂ : ι → ℚ) (t₀ : ℕ)
    (hlen₁ : reward₁.length = done_mb.length)
    (hlen₂ : reward₂.length = done_mb.length)
    (ht : t₀ + 1 < done_mb.length)
    (hd : (done_mb.getD t₀ (fun _ => 0)) i = 1)
    (hr : ((reward₁.map (fun v => v i)).take (t₀ + 1))
        = ((reward₂.map (fun v => v i)).take (t₀ + 1))) :
    ((boostrap ι discount reward₁ done_mb v₁).map (fun v => v i)).take (t₀ + 1)
      = ((boostrap ι discount reward₂ done_mb v₂).map (fun v => v i)).take
          (t₀ + 1) := by
  rw [boostrap_apply, boostrap_apply]
  apply boostrapS_noninterference
  · rw [List.length_map, List.length_map, hlen₁]
  · rw [List.length_map, List.length_map, hlen₂]
  · rw [List.length_map]; exact ht
  · have := List.getD_map (l := done_mb) (n := t₀)
      (f := fun v : ι → ℚ => v i) (d := fun _ => (0 : ℚ))
    rw [this]
    exact hd
  · exact hr

/-- Witness for C4 at a concrete input: `T = 3`, boundary at `t₀ = 0`,
rewards differing after the boundary, different terminal values. -/
theorem boostrap_noninterference_witness :
    ((boostrap (Fin 1) (1/2) [![1], ![2], ![3]] [![1], ![0], ![0]] ![4]).map
        (fun v => v 0)).take 1
      = ((boostrap (Fin 1) (1/2) [![1], ![9], ![8]] [![1], ![0], ![0]] ![6]).map
        (fun v => v 0)).take 1 :=
  boostrap_noninterference (Fin 1) 0 (1/2)
    [![1], ![2], ![3]] [![1], ![9], ![8]] [![1], ![0], ![0]] ![4] ![6] 0
    (by simp) (by simp) (by simp)
    (by norm_num [List.getD])
    (by norm_num)

/-! ## `worker` and `ParallelEnvWrapper` (src/envs/parallel_env.py)

A worker owns one gym environment, modelled as a state machine with
pure `step`, `reset` and `close` transitions plus static space metadata.
-/

/-- A gym environment as owned by one worker process. -/
structure Env (S A Ob I ASp OSp : Type) where
  step : S → A → (Ob × ℚ × Bool × I) × S
  reset : S → Ob × S
  close : S → S
  action_space : ASp
  observation_space : OSp

/-- The worker's handling of a `step` command:

    ob, reward, done, info = env.step(data)
    if done: ob = env.reset()
    pipe.send((ob, reward, done, info))

On `done` the terminal observation is replaced by the fresh reset
observation; reward, done and info are those of the terminated episode. -/
def workerStepCmd {S A Ob I ASp OSp : Type} (env : Env S A Ob I ASp OSp)
    (s : S) (a : A) : (Ob × ℚ × Bool × I) × S :=
  let res := env.step s a
  let ob := res.1.1
  let reward := res.1.2.1
  let done := res.1.2.2.1
  let info := res.1.2.2.2
  let s1 := res.2
  if done then
    let r2 := env.reset s1
    ((r2.1, reward, done, info), r2.2)
  else
    ((ob, reward, done, info), s1)

/-- C3: if the wrapped environment's step returns `done = true`, the
worker resets internally and replies with the reset observation while
reward, done and info are those of the just-terminated episode; if
`done = false` the original step result is returned unchanged. -/
theorem worker_step_resets_on_done {S A Ob I ASp OSp : Type}
    (env : Env S A Ob I ASp OSp) (s : S) (a : A) (ob : Ob) (reward : ℚ)
    (info : I) (s1 : S) :
    (env.step s a = ((ob, reward, true, info), s1) →
      workerStepCmd env s a
        = (((env.reset s1).1, reward, true, info), (env.reset s1).2)) ∧
    (env.step s a = ((ob, reward, false, info), s1) →
      workerStepCmd env s a = ((ob, reward, false, info), s1)) := by
  constructor
  · intro h
    unfold workerStepCmd
    rw [h]
    rfl
  · intro h
    unfold workerStepCmd
    rw [h]
    rfl

/-- A tiny concrete environment used to witness C3: an episode ends when
the accumulated state exceeds 5. -/
def demoEnv : Env ℕ ℕ ℕ Unit Unit Unit where
  step := fun s a => ((s + a, 1, decide (5 < s + a), ()), s + a)
  reset := fun _ => (0, 99)
  close := fun s => s
  action_space := ()
  observation_space := ()

/-- Witness for C3: a terminating step replies with the reset
observation and state; a non-terminating step is passed through. -/
theorem worker_step_resets_on_done_witness :
    workerStepCmd demoEnv 5 3 = ((0, 1, true, ()), 99) ∧
    workerStepCmd demoEnv 1 1 = ((2, 1, false, ()), 2) :=
  ⟨(worker_step_resets_on_done demoEnv 5 3 8 1 () 8).1 rfl,
   (worker_step_resets_on_done demoEnv 1 1 2 1 () 2).2 rfl⟩

/-- Python-level runtime errors relevant to this code. -/
inductive PyErr where
  | nameError
  | notImplementedError
deriving DecidableEq

/-- The worker loop's command tags: the four serviced commands plus any
other (unrecognized) tag. -/
inductive WorkerCmd (A : Type) where
  | step (a : A)
  | reset
  | close
  | get_spaces
  | other (tag : String)

/-- The reply a worker sends back on its pipe, by command kind. -/
inductive WorkerReplyMsg (Ob I ASp OSp : Type) where
  | stepReply (ob : Ob) (reward : ℚ) (done : Bool) (info : I)
  | resetReply (ob : Ob)
  | spacesReply (aSp : ASp) (oSp : OSp)

/-- Outcome of servicing one command in the worker loop: stay in the
loop with a reply sent, leave the loop (on `close`), or crash with an
uncaught exception. -/
inductive WorkerOutcome (S Ob I ASp OSp : Type) where
  | running (s : S) (reply : WorkerReplyMsg Ob I ASp OSp)
  | terminated (s : S)
  | fault (e : PyErr)

/-- The `worker` loop body's command dispatch:

    if cmd == 'step': ... pipe.send((ob, reward, done, info))
    elif cmd == 'reset': ... pipe.send(ob)
    elif cmd == 'close': env.close(); break
    elif cmd == 'get_spaces': pipe.send((env.action_space, env.observation_space))
    else: raise NotImplementedError
-/
def workerDispatch {S A Ob I ASp OSp : Type} (env : Env S A Ob I ASp OSp)
    (s : S) : WorkerCmd A → WorkerOutcome S Ob I ASp OSp
  | .step a =>
    let r := workerStepCmd env s a
    .running r.2 (.stepReply r.1.1 r.1.2.1 r.1.2.2.1 r.1.2.2.2)
  | .reset =>
    let r := env.reset s
    .running r.2 (.resetReply r.1)
  | .close => .terminated (env.close s)
  | .get_spaces => .running s (.spacesReply env.action_space env.observation_space)
  | .other _ => .fault .notImplementedError

def WorkerOutcome.isRunning {S Ob I ASp OSp : Type} :
    WorkerOutcome S Ob I ASp OSp → Bool
  | .running _ _ => true
  | _ => false

def WorkerOutcome.isFault {S Ob I ASp OSp : Type} :
    WorkerOutcome S Ob I ASp OSp → Bool
  | .fault _ => true
  | _ => false

def WorkerCmd.isOther {A : Type} : WorkerCmd A → Bool
  | .other _ => true
  | _ => false

/-- C7: the worker dispatch stays in the running loop on `step`, `reset`
and `get_spaces`, terminates exactly on `close` (after closing the
environment), raises `NotImplementedError` on every other command tag,
and this raise is the only failure branch of the dispatch. -/
theorem worker_dispatch_protocol {S A Ob I ASp OSp : Type}
    (env : Env S A Ob I ASp OSp) :
    (∀ (s : S) (a : A), (workerDispatch env s (.step a)).isRunning = true) ∧
    (∀ s : S, (workerDispatch env s .reset).isRunning = true) ∧
    (∀ s : S, (workerDispatch env s .get_spaces).isRunning = true) ∧
    (∀ s : S, workerDispatch env s .close = .terminated (env.close s)) ∧
    (∀ (s : S) (tag : String),
      workerDispatch env s (.other tag) = .fault .notImplementedError) ∧
    (∀ (s : S) (c : WorkerCmd A),
      (workerDispatch env s c).isFault = c.isOther) := by
  refine ⟨fun s a => rfl, fun s => rfl, fun s => rfl, fun s => rfl,
    fun s tag => rfl, fun s c => ?_⟩
  cases c <;> rfl

/-! ### `ParallelEnvWrapper._step` ordering (C2)

The manager sends `('step', action_i)` on pipe `i` and then calls
`pipe.recv()` on the pipes in index order.  Each pipe is a FIFO channel
private to one worker, so the slot `i` of the result list is worker
`i`'s reply no matter in which global order the replies were produced.
The arrival interleaving is modelled as a list `order` of worker ids:
messages are appended to the owning worker's queue in that order. -/

/-- Deliver one reply per listed worker, in arrival order: worker `j`'s
reply is appended to `j`'s own pipe queue. -/
def pushAll {n : ℕ} {R : Type} (reply : Fin n → R) :
    List (Fin n) → (Fin n → List R) → (Fin n → List R)
  | [], queues => queues
  | j :: rest, queues =>
    pushAll reply rest
      (fun i => if i = j then queues i ++ [reply j] else queues i)

/-- `ParallelEnvWrapper._step`, with the reply arrival interleaving as
an explicit parameter: compute worker `i`'s reply to `actions i`,
deliver the replies in arrival order `order`, then read each pipe's
queue head in index order. -/
def managerStep {n : ℕ} {A R : Type} (workers : Fin n → A → R)
    (actions : Fin n → A) (order : List (Fin n)) : Fin n → Option R :=
  fun i =>
    (pushAll (fun j => workers j (actions j)) order (fun _ => [])) i |>.head?

/-- Field-wise stacking of composite (tuple) observations:
`obs = tuple(np.stack([ob[c] for ob in obs]) for c in xrange(n))`. -/
def stackObsField {n m : ℕ} {β I : Type}
    (results : Fin n → Option ((Fin m → β) × ℚ × Bool × I)) (c : Fin m)
    (i : Fin n) : Option β :=
  (results i).map (fun r => r.1 c)

theorem pushAll_apply {n : ℕ} {R : Type} (reply : Fin n → R) :
    ∀ (order : List (Fin n)) (queues : Fin n → List R) (i : Fin n),
      pushAll reply order queues i
        = queues i ++ (order.filter (fun j => decide (j = i))).map reply := by
  intro order
  induction order with
  | nil => intro queues i; simp [pushAll]
  | cons j rest ih =>
    intro queues i
    simp only [pushAll]
    rw [ih, List.filter_cons]
    by_cases h : i = j
    · subst h
      simp
    · have h' : decide (j = i) = false := by
        simp only [decide_eq_false_iff_not]
        exact fun hji => h hji.symm
      simp [if_neg h, h']

theorem filter_eq_singleton_of_nodup {n : ℕ} (i : Fin n) :
    ∀ (order : List (Fin n)), order.Nodup → i ∈ order →
      order.filter (fun j => decide (j = i)) = [i] := by
  intro order
  induction order with
  | nil => intro _ h; cases h
  | cons j rest ih =>
    intro hnd hmem
    rw [List.filter_cons]
    have hj : j ∉ rest := (List.nodup_cons.mp hnd).1
    rcases List.mem_cons.mp hmem with h | h
    · subst h
      have hrest : rest.filter (fun j => decide (j = i)) = [] := by
        rw [List.filter_eq_nil_iff]
        intro a ha
        simp only [decide_eq_true_eq]
        intro hai
        exact hj (hai ▸ ha)
      simp [hrest]
    · have hne : decide (j = i) = false := by
        simp only [decide_eq_false_iff_not]
        intro hji
        exact hj (hji ▸ h)
      rw [hne, if_neg (by simp)]
      exact ih (List.nodup_cons.mp hnd).2 h

/-- C2: for `N ≥ 1` workers, `_step` returns a batch whose slot `i` is
exactly worker `i`'s reply to action `i`, for every reply arrival
interleaving (each worker replying once); composite observations are
stacked field-wise in the same index order. -/
theorem manager_step_slot_fidelity (n : ℕ) (_hn : 1 ≤ n) {A R : Type}
    (workers : Fin n → A → R) (actions : Fin n → A)
    (order : List (Fin n)) (hnd : order.Nodup) (hall : ∀ i, i ∈ order) :
    (∀ i, managerStep workers actions order i = some (workers i (actions i))) ∧
    (∀ (m : ℕ) (β I : Type)
      (cworkers : Fin n → A → (Fin m → β) × ℚ × Bool × I) (c : Fin m)
      (i : Fin n),
      stackObsField (managerStep cworkers actions order) c i
        = some ((cworkers i (actions i)).1 c)) := by
  have hmain : ∀ {R' : Type} (workers' : Fin n → A → R') (i : Fin n),
      managerStep workers' actions order i = some (workers' i (actions i)) := by
    intro R' workers' i
    unfold managerStep
    rw [pushAll_apply, filter_eq_singleton_of_nodup i order hnd (hall i)]
    rfl
  refine ⟨fun i => hmain workers i, fun m β I cworkers c i => ?_⟩
  unfold stackObsField
  rw [hmain cworkers i]
  rfl

/-- Witness for C2: two workers, replies delivered in reversed order
`[1, 0]`; each slot still holds its own worker's reply. -/
theorem manager_step_slot_fidelity_witness :
    managerStep (fun (i : Fin 2) (a : ℕ) => (i.val, a))
        (fun i => i.val * 7) [1, 0] 0 = some (0, 0) ∧
    managerStep (fun (i : Fin 2) (a : ℕ) => (i.val, a))
        (fun i => i.val * 7) [1, 0] 1 = some (1, 7) :=
  ⟨(manager_step_slot_fidelity 2 (by decide)
      (fun (i : Fin 2) (a : ℕ) => (i.val, a)) (fun i => i.val * 7) [1, 0]
      (by decide) (by decide)).1 0,
   (manager_step_slot_fidelity 2 (by decide)
      (fun (i : Fin 2) (a : ℕ) => (i.val, a)) (fun i => i.val * 7) [1, 0]
      (by decide) (by decide)).1 1⟩

/-! ## `A2CAgent._ndarray_to_tensor` (C9) -/

/-- A Python observation: a single array or a composite tuple of
arrays. -/
inductive PyObs (τ : Type) where
  | single (a : τ)
  | composite (xs : List τ)

/-- `A2CAgent._ndarray_to_tensor`.  In the CPU tuple branch the source
is `[torch.from_numpy(o) for array in arrays]`: the comprehension body
references the name `o`, which is bound nowhere in the enclosing scopes,
so evaluating the body raises `NameError`.  The iteration structure is
kept (`mapM` over the tuple's elements), so only a (never-occurring)
empty tuple would skip the faulty body. -/
def ndarray_to_tensor {τ τ' : Type} (use_gpu : Bool)
    (from_numpy : τ → τ') (cuda : τ' → τ') (arrays : PyObs τ) :
    Except PyErr (PyObs τ') :=
  match arrays with
  | .composite xs =>
    if use_gpu then
      .ok (.composite (xs.map (fun array => cuda (from_numpy array))))
    else
      (xs.mapM (fun _array => (.error .nameError : Except PyErr τ'))).map
        .composite
  | .single a =>
    if use_gpu then .ok (.single (cuda (from_numpy a)))
    else .ok (.single (from_numpy a))

/-- C9: with `use_gpu = false`, converting a (nonempty) composite tuple
observation raises `NameError` (the comprehension references the
undefined name `o`); with `use_gpu = true` the conversion succeeds, so
composite observations are convertible only on the GPU path. -/
theorem ndarray_to_tensor_cpu_tuple_name_error {τ τ' : Type}
    (from_numpy : τ → τ') (cuda : τ' → τ') :
    (∀ xs : List τ, xs ≠ [] →
      ndarray_to_tensor false from_numpy cuda (.composite xs)
        = .error .nameError) ∧
    (∀ xs : List τ,
      ndarray_to_tensor true from_numpy cuda (.composite xs)
        = .ok (.composite (xs.map (fun array => cuda (from_numpy array))))) := by
  constructor
  · intro xs hne
    cases xs with
    | nil => exact absurd rfl hne
    | cons x rest => rfl
  · intro xs
    rfl

/-- Witness for C9 at a concrete nonempty tuple. -/
theorem ndarray_to_tensor_cpu_tuple_name_error_witness :
    ndarray_to_tensor false (id : ℕ → ℕ) id (.composite [3])
      = .error .nameError :=
  (ndarray_to_tensor_cpu_tuple_name_error (id : ℕ → ℕ) id).1 [3] (by simp)

/-! ## `A2CAgent._rollout` (C8)

The loop runs exactly `rollout_num_steps` iterations; each iteration
appends the current observation and sampled action, steps the vectorized
environment, and appends the resulting reward and done batches.  The
vectorized environment acts slot-wise (established for
`ParallelEnvWrapper._step` in the C2 development): replica `i` evolves
by the per-replica transition `f` (the worker's auto-resetting step).
Action sampling is a function of the current observation batch and a
threaded sampler state `P`; tensor conversion (`_ndarray_to_tensor`)
is shape-preserving and omitted here. -/

/-- The four per-step buffers built by `_rollout`, plus the observation
left for the next rollout. -/
structure RolloutBufs (n : ℕ) (Ob A : Type) where
  obs_mb : List (Fin n → Ob)
  action_mb : List (Fin n → A)
  reward_mb : List (Fin n → ℚ)
  done_mb : List (Fin n → Bool)
  last_obs : Fin n → Ob

/-- One batched environment step, acting slot-wise by the per-replica
transition `f`. -/
def vecEnvStep {n : ℕ} {S A Ob : Type} (f : S → A → Ob × ℚ × Bool × S)
    (s : Fin n → S) (a : Fin n → A) :
    (Fin n → Ob) × (Fin n → ℚ) × (Fin n → Bool) × (Fin n → S) :=
  (fun i => (f (s i) (a i)).1,
   fun i => (f (s i) (a i)).2.1,
   fun i => (f (s i) (a i)).2.2.1,
   fun i => (f (s i) (a i)).2.2.2)

/-- The loop of `A2CAgent._rollout`, by remaining iteration count. -/
def rolloutAux {n : ℕ} {S A Ob P : Type} (f : S → A → Ob × ℚ × Bool × S)
    (policy : P → (Fin n → Ob) → (Fin n → A) × P) :
    ℕ → P → (Fin n → S) → (Fin n → Ob) →
      RolloutBufs n Ob A × (Fin n → S) × P
  | 0, p, s, ob => (⟨[], [], [], [], ob⟩, s, p)
  | T + 1, p, s, ob =>
    let ap := policy p ob
    let res := vecEnvStep f s ap.1
    let rest := rolloutAux f policy T ap.2 res.2.2.2 res.1
    (⟨ob :: rest.1.obs_mb, ap.1 :: rest.1.action_mb,
      res.2.1 :: rest.1.reward_mb, res.2.2.1 :: rest.1.done_mb,
      rest.1.last_obs⟩, rest.2)

/-- Replay of a single replica under a given action sequence: the
observation/reward/done stream replica `i` would produce on its own. -/
def replaySingle {S A Ob : Type} (f : S → A → Ob × ℚ × Bool × S) :
    List A → S → Ob → List Ob × List ℚ × List Bool
  | [], _, _ => ([], [], [])
  | a :: rest, s, ob =>
    let r := f s a
    let t := replaySingle f rest r.2.2.2 r.1
    (ob :: t.1, r.2.1 :: t.2.1, r.2.2.1 :: t.2.2)

/-- C8: `_rollout` produces buffers of length exactly
`rollout_num_steps` (never more, never fewer), and slot `i` of every
per-step batch is replica `i`'s own transition stream: projecting the
buffers at slot `i` replays replica `i` alone under the recorded
actions. -/
theorem rollout_buffer_lengths_and_slots {n : ℕ} {S A Ob P : Type}
    (f : S → A → Ob × ℚ × Bool × S)
    (policy : P → (Fin n → Ob) → (Fin n → A) × P) (T : ℕ) :
    ∀ (p : P) (s : Fin n → S) (ob : Fin n → Ob),
      ((rolloutAux f policy T p s ob).1.obs_mb.length = T ∧
       (rolloutAux f policy T p s ob).1.action_mb.length = T ∧
       (rolloutAux f policy T p s ob).1.reward_mb.length = T ∧
       (rolloutAux f policy T p s ob).1.done_mb.length = T) ∧
      ∀ i : Fin n,
        ((rolloutAux f policy T p s ob).1.obs_mb.map (fun v => v i),
         (rolloutAux f policy T p s ob).1.reward_mb.map (fun v => v i),
         (rolloutAux f policy T p s ob).1.done_mb.map (fun v => v i))
          = replaySingle f
              ((rolloutAux f policy T p s ob).1.action_mb.map (fun v => v i))
              (s i) (ob i) := by
  induction T with
  | zero =>
    intro p s ob
    exact ⟨⟨rfl, rfl, rfl, rfl⟩, fun i => rfl⟩
  | succ T ih =>
    intro p s ob
    obtain ⟨⟨h1, h2, h3, h4⟩, hslot⟩ :=
      ih (policy p ob).2
        (fun i => (f (s i) ((policy p ob).1 i)).2.2.2)
        (fun i => (f (s i) ((policy p ob).1 i)).1)
    refine ⟨⟨?_, ?_, ?_, ?_⟩, ?_⟩
    · simpa [rolloutAux, vecEnvStep] using h1
    · simpa [rolloutAux, vecEnvStep] using h2
    · simpa [rolloutAux, vecEnvStep] using h3
    · simpa [rolloutAux, vecEnvStep] using h4
    · intro i
      have hs := hslot i
      simp only [rolloutAux, vecEnvStep, List.map_cons, replaySingle]
      rw [← hs]

/-! ## `A2CAgent._update` (C6)

    log_prob = F.log_softmax(prob_logit, 1)
    prob = F.softmax(prob_logit, 1)
    entropy = -(log_prob * prob).sum(1)
    advantage = Variable(torch.cat(target_value_mb)) - value
    value_loss = advantage.pow(2).mean() * 0.5
    policy_loss = - (log_prob.gather(1, action) * Variable(advantage.data)).mean()
    entropy_loss = entropy.mean()
    loss = policy_loss + self._val_coef * value_loss + self._ent_coef * entropy_loss

`exp` and `log` are abstract parameters `expf`, `logf`; `F.log_softmax`
is `x_a - log (Σ_b exp x_b)` and `F.softmax` is `exp x_a / Σ_b exp x_b`.
`Variable(advantage.data)` detaches the advantage from the autograd
graph; at the value level it is the advantage itself. -/

/-- Mean over a batch of size `k`. -/
def meanFin {k : ℕ} (g : Fin k → ℚ) : ℚ := (∑ x, g x) / k

def log_softmax {B A : ℕ} (expf logf : ℚ → ℚ) (logits : Fin B → Fin A → ℚ)
    (b : Fin B) (a : Fin A) : ℚ :=
  logits b a - logf (∑ x, expf (logits b x))

def softmaxP {B A : ℕ} (expf : ℚ → ℚ) (logits : Fin B → Fin A → ℚ)
    (b : Fin B) (a : Fin A) : ℚ :=
  expf (logits b a) / ∑ x, expf (logits b x)

/-- `entropy = -(log_prob * prob).sum(1)`, one entry per batch row. -/
def entropyRow {B A : ℕ} (expf logf : ℚ → ℚ) (logits : Fin B → Fin A → ℚ)
    (b : Fin B) : ℚ :=
  -(∑ a, log_softmax expf logf logits b a * softmaxP expf logits b a)

def advantage {B : ℕ} (target value : Fin B → ℚ) (b : Fin B) : ℚ :=
  target b - value b

def value_loss {B : ℕ} (target value : Fin B → ℚ) : ℚ :=
  meanFin (fun b => (advantage target value b) ^ 2) * (1/2)

def policy_loss {B A : ℕ} (expf logf : ℚ → ℚ)
    (logits : Fin B → Fin A → ℚ) (action : Fin B → Fin A)
    (target value : Fin B → ℚ) : ℚ :=
  -(meanFin (fun b =>
      log_softmax expf logf logits b (action b) * advantage target value b))

def entropy_loss {B A : ℕ} (expf logf : ℚ → ℚ)
    (logits : Fin B → Fin A → ℚ) : ℚ :=
  meanFin (entropyRow expf logf logits)

/-- How `_update` combines the three loss terms. -/
def lossCombine (val_coef ent_coef p v e : ℚ) : ℚ :=
  p + val_coef * v + ent_coef * e

/-- The scalar loss built by `_update`. -/
def updateLoss {B A : ℕ} (expf logf : ℚ → ℚ) (val_coef ent_coef : ℚ)
    (logits : Fin B → Fin A → ℚ) (action : Fin B → Fin A)
    (target value : Fin B → ℚ) : ℚ :=
  policy_loss expf logf logits action target value
    + val_coef * value_loss target value
    + ent_coef * entropy_loss expf logf logits

/-- C6: the `_update` loss equals
`policy_loss + val_coef * value_loss + ent_coef * entropy_term` with
`value_loss = 0.5 * mean((target - value)^2)`, `entropy_term` the batch
mean of the Shannon entropy `-Σ_a softmax * log_softmax`, and
`policy_loss = -mean(log_softmax at the action, times the (detached)
advantage)`; the entropy term enters with positive coefficient and no
negation, so the loss is strictly increasing in the entropy term. -/
theorem update_loss_composition (B A : ℕ) (expf logf : ℚ → ℚ)
    (val_coef ent_coef : ℚ) (logits : Fin B → Fin A → ℚ)
    (action : Fin B → Fin A) (target value : Fin B → ℚ) :
    (updateLoss expf logf val_coef ent_coef logits action target value
      = lossCombine val_coef ent_coef
          (policy_loss expf logf logits action target value)
          (value_loss target value)
          (entropy_loss expf logf logits)) ∧
    (value_loss target value
      = (1/2) * meanFin (fun b => (target b - value b) ^ 2)) ∧
    (entropy_loss expf logf logits
      = meanFin (fun b =>
          -(∑ a, softmaxP expf logits b a * log_softmax expf logf logits b a))) ∧
    (policy_loss expf logf logits action target value
      = -(meanFin (fun b =>
          log_softmax expf logf logits b (action b) * (target b - value b)))) ∧
    (∀ p v e₁ e₂ : ℚ, 0 < ent_coef → e₁ < e₂ →
      lossCombine val_coef ent_coef p v e₁
        < lossCombine val_coef ent_coef p v e₂) := by
  refine ⟨rfl, ?_, ?_, rfl, ?_⟩
  · unfold value_loss advantage
    ring
  · unfold entropy_loss
    apply congrArg meanFin
    funext b
    unfold entropyRow
    congr 1
    exact Finset.sum_congr rfl (fun a _ => mul_comm _ _)
  · intro p v e₁ e₂ hce h12
    unfold lossCombine
    have := mul_lt_mul_of_pos_left h12 hce
    linarith

/-- Witness for C6: strict monotonicity of the loss in the entropy term
at concrete inputs. -/
theorem update_loss_composition_witness :
    lossCombine 1 (1/2) 0 0 0 < lossCombine 1 (1/2) 0 0 1 :=
  (update_loss_composition 1 1 id id 1 (1/2) (fun _ _ => 0) (fun _ => 0)
      (fun _ => 0) (fun _ => 0)).2.2.2.2 0 0 0 1 (by norm_num) (by norm_num)

/-! ## `ZergObservationWrapper` (src/wrappers/zerg_observation_wrappers.py, C10)

Units carry the attributes the wrapper reads; `observation["player"]` is
the pysc2 player stat vector (11 entries).  A numpy array of shape
`(C, R, R)` is a `Feature3D`: the declared per-channel extent `res`
together with the channel list; each channel is a grid indexed `[y][x]`
(total over `ℤ`, mirroring float-to-int index computation).  `np.log10`
is the abstract parameter `log10f`. -/

structure SC2Unit where
  alliance : ℕ
  unit_type : ℕ
  pos_x : ℚ
  pos_y : ℚ
  is_flying : Bool

structure RawObs where
  units : List SC2Unit
  player : List ℚ

def Grid : Type := ℤ → ℤ → ℚ

def zeroGrid : Grid := fun _ _ => 0

/-- A numpy float array of shape `(chans.length, res, res)`. -/
structure Feature3D where
  res : ℕ
  chans : List Grid

def zerosF3 (n R : ℕ) : Feature3D := ⟨R, List.replicate n zeroGrid⟩

/-- `np.concatenate` along the channel axis. -/
def concatF3 (a b : Feature3D) : Feature3D := ⟨a.res, a.chans ++ b.chans⟩

/-- `features[c, int(y), int(x)] += 1.0` at one cell. -/
def bumpGrid (g : Grid) (y x : ℤ) : Grid :=
  fun y' x' => if y' = y ∧ x' = x then g y' x' + 1 else g y' x'

def typeMapMax (tm : List (ℕ × ℕ)) : ℕ := tm.foldl (fun m p => max m p.2) 0

/-- Loop body of `UnitType3DFeature._generate_features`. -/
def utStep (tm : List (ℕ × ℕ)) (R : ℕ) (gw gh : ℚ) (feats : Feature3D)
    (u : SC2Unit) : Feature3D :=
  match tm.lookup u.unit_type with
  | some c =>
    let x := ⌊u.pos_x / gw⌋
    let y := (R : ℤ) - 1 - ⌊u.pos_y / gh⌋
    ⟨feats.res, feats.chans.set c (bumpGrid (feats.chans.getD c zeroGrid) y x)⟩
  | none => feats

/-- `UnitType3DFeature._generate_features`: zeros of shape
`(max(type_map.values()) + 1, R, R)`, one increment per mapped unit. -/
def utGen (tm : List (ℕ × ℕ)) (R : ℕ) (ws : ℚ × ℚ)
    (units : List SC2Unit) : Feature3D :=
  units.foldl (utStep tm R (ws.1 / R) (ws.2 / R))
    (zerosF3 (typeMapMax tm + 1) R)

/-- `UnitType3DFeature.features`: self channels then enemy channels. -/
def utFeatures (tm : List (ℕ × ℕ)) (R : ℕ) (ws : ℚ × ℚ)
    (o : RawObs) : Feature3D :=
  concatF3 (utGen tm R ws (o.units.filter (fun u => u.alliance == 1)))
    (utGen tm R ws (o.units.filter (fun u => u.alliance == 4)))

/-- Loop body of `PlayerRelative3DFeature._generate_features`. -/
def prStep (R : ℕ) (gw gh : ℚ) (feats : Feature3D) (u : SC2Unit) :
    Feature3D :=
  let x := ⌊u.pos_x / gw⌋
  let y := (R : ℤ) - 1 - ⌊u.pos_y / gh⌋
  ⟨feats.res, feats.chans.set 0 (bumpGrid (feats.chans.getD 0 zeroGrid) y x)⟩

/-- `PlayerRelative3DFeature._generate_features`: one channel. -/
def prGen (R : ℕ) (ws : ℚ × ℚ) (units : List SC2Unit) : Feature3D :=
  units.foldl (prStep R (ws.1 / R) (ws.2 / R)) (zerosF3 1 R)

/-- `PlayerRelative3DFeature.features`: self, enemy, neutral channels. -/
def prFeatures (R : ℕ) (ws : ℚ × ℚ) (o : RawObs) : Feature3D :=
  concatF3
    (concatF3 (prGen R ws (o.units.filter (fun u => u.alliance == 1)))
      (prGen R ws (o.units.filter (fun u => u.alliance == 4))))
    (prGen R ws (o.units.filter (fun u => u.alliance == 3)))

/-- Key order of a Python dict comprehension over a list: first
occurrences, in order. -/
def pyDictKeysAux (seen : List ℕ) : List ℕ → List ℕ
  | [] => []
  | t :: rest =>
    if t ∈ seen then pyDictKeysAux seen rest
    else t :: pyDictKeysAux (t :: seen) rest

def pyDictKeys (l : List ℕ) : List ℕ := pyDictKeysAux [] l

/-- `UnitCount1DFeature._generate_features`: per dict key (in insertion
order), the number of units of that type. -/
def ucGen (tl : List ℕ) (units : List SC2Unit) : List ℚ :=
  (pyDictKeys tl).map (fun t =>
    ((units.filter (fun u => u.unit_type == t)).length : ℚ))

/-- `UnitCount1DFeature.features`. -/
def ucFeatures (log10f : ℚ → ℚ) (tl : List ℕ) (o : RawObs) : List ℚ :=
  let selfF := ucGen tl (o.units.filter (fun u => u.alliance == 1))
  let enemyF := ucGen tl (o.units.filter (fun u => u.alliance == 4))
  let f := selfF ++ enemyF
  (f.map (fun x => x / 10)) ++ (f.map (fun x => log10f (x + 1)))

/-- `UnitStat1DFeature.features`. -/
def usFeatures (log10f : ℚ → ℚ) (o : RawObs) : List ℚ :=
  let selfU := o.units.filter (fun u => u.alliance == 1)
  let selfFly := selfU.filter (fun u => u.is_flying)
  let enemyU := o.units.filter (fun u => u.alliance == 4)
  let enemyFly := enemyU.filter (fun u => u.is_flying)
  let f : List ℚ :=
    [selfU.length, selfFly.length, enemyU.length, enemyFly.length]
  (f.map (fun x => x / 50)) ++ (f.map (fun x => log10f (x + 1)))

/-- `Player1DFeature.features`: slice `player[1:-2]`, scale, log. -/
def playerFeatures (log10f : ℚ → ℚ) (o : RawObs) : List ℚ :=
  let pf := (o.player.drop 1).dropLast.dropLast
  let scale : List ℚ := [1000, 1000, 10, 10, 10, 10, 10, 10]
  (List.zipWith (fun x s => x / s) pf scale)
    ++ (pf.map (fun x => log10f (x + 1)))

/-- The wrapper's `type_map` (pysc2 `UNIT_TYPEID` values). -/
def zergTypeMap : List (ℕ × ℕ) :=
  [(104, 0), (105, 1), (110, 2), (107, 3), (106, 4), (129, 5), (86, 6),
   (100, 6), (101, 6), (88, 7), (126, 8), (688, 9), (9, 10)]

/-- The wrapper's `type_list` (pysc2 `UNIT_TYPEID` values). -/
def zergTypeList : List ℕ :=
  [104, 105, 110, 107, 106, 129, 126, 15, 688, 103, 90, 9, 289, 151, 86,
   100, 101, 96, 89, 97, 91, 88]

def worldSize : ℚ × ℚ := (200, 176)

/-- `n_channels` computed in `__init__` from the `num_channels`
properties: `(max(type_map.values()) + 1) * 2` for unit types plus `3`
for player-relative. -/
def zergNChannels : ℕ := (typeMapMax zergTypeMap + 1) * 2 + 3

/-- `n_dims` computed in `__init__` from the `num_dims` properties:
`4*2` unit-stat, `len(type_list)*2*2` unit-count, `8*2` player. -/
def zergNDims : ℕ := 4 * 2 + zergTypeList.length * 2 * 2 + 8 * 2

/-- `_diagonal_flip`: `np.flip` along axes 1 and 2 when the agent's
start position is 0. -/
def diagFlip (player_position : ℕ) (f : Feature3D) : Feature3D :=
  if player_position = 0 then
    ⟨f.res,
     f.chans.map (fun g y x => g ((f.res : ℤ) - 1 - y) ((f.res : ℤ) - 1 - x))⟩
  else f

/-- `ZergObservationWrapper._observation`, for an action space without a
mask (the `MaskableDiscrete` branches are not taken). -/
def zergObservation (log10f : ℚ → ℚ) (R : ℕ) (flip : Bool)
    (player_position : ℕ) (o : RawObs) : Feature3D × List ℚ :=
  let player_rel_feat := prFeatures R worldSize o
  let unit_type_feat := utFeatures zergTypeMap R worldSize o
  let unit_count_feat := ucFeatures log10f zergTypeList o
  let unit_stat_feat := usFeatures log10f o
  let player_feat := playerFeatures log10f o
  let spatial_feat := concatF3 player_rel_feat unit_type_feat
  let nonspatial_feat := unit_stat_feat ++ unit_count_feat ++ player_feat
  (if flip then diagFlip player_position spatial_feat else spatial_feat,
   nonspatial_feat)

theorem foldl_utStep_shape (tm : List (ℕ × ℕ)) (R : ℕ) (gw gh : ℚ) :
    ∀ (units : List SC2Unit) (f : Feature3D),
      ((units.foldl (utStep tm R gw gh) f).chans.length = f.chans.length) ∧
      ((units.foldl (utStep tm R gw gh) f).res = f.res) := by
  intro units
  induction units with
  | nil => intro f; exact ⟨rfl, rfl⟩
  | cons u rest ih =>
    intro f
    simp only [List.foldl_cons]
    constructor
    · rw [(ih _).1]
      cases h : tm.lookup u.unit_type <;> simp [utStep, h, List.length_set]
    · rw [(ih _).2]
      cases h : tm.lookup u.unit_type <;> simp [utStep, h]

theorem foldl_prStep_shape (R : ℕ) (gw gh : ℚ) :
    ∀ (units : List SC2Unit) (f : Feature3D),
      ((units.foldl (prStep R gw gh) f).chans.length = f.chans.length) ∧
      ((units.foldl (prStep R gw gh) f).res = f.res) := by
  intro units
  induction units with
  | nil => intro f; exact ⟨rfl, rfl⟩
  | cons u rest ih =>
    intro f
    simp only [List.foldl_cons]
    constructor
    · rw [(ih _).1]
      simp [prStep, List.length_set]
    · exact (ih _).2

theorem utGen_shape (tm : List (ℕ × ℕ)) (R : ℕ) (ws : ℚ × ℚ)
    (units : List SC2Unit) :
    (utGen tm R ws units).chans.length = typeMapMax tm + 1 ∧
    (utGen tm R ws units).res = R := by
  unfold utGen
  refine ⟨?_, ?_⟩
  · rw [(foldl_utStep_shape tm R _ _ units _).1]
    simp [zerosF3]
  · rw [(foldl_utStep_shape tm R _ _ units _).2]
    rfl

theorem prGen_shape (R : ℕ) (ws : ℚ × ℚ) (units : List SC2Unit) :
    (prGen R ws units).chans.length = 1 ∧ (prGen R ws units).res = R := by
  unfold prGen
  refine ⟨?_, ?_⟩
  · rw [(foldl_prStep_shape R _ _ units _).1]
    simp [zerosF3]
  · rw [(foldl_prStep_shape R _ _ units _).2]
    rfl

theorem utFeatures_shape (R : ℕ) (o : RawObs) :
    (utFeatures zergTypeMap R worldSize o).chans.length = 22 ∧
    (utFeatures zergTypeMap R worldSize o).res = R := by
  unfold utFeatures concatF3
  refine ⟨?_, ?_⟩
  · simp only [List.length_append,
      (utGen_shape zergTypeMap R worldSize _).1]
    decide
  · exact (utGen_shape zergTypeMap R worldSize _).2

theorem prFeatures_shape (R : ℕ) (o : RawObs) :
    (prFeatures R worldSize o).chans.length = 3 ∧
    (prFeatures R worldSize o).res = R := by
  unfold prFeatures concatF3
  refine ⟨?_, ?_⟩
  · simp only [List.length_append, (prGen_shape R worldSize _).1]
  · exact (prGen_shape R worldSize _).2

theorem ucFeatures_length (log10f : ℚ → ℚ) (o : RawObs) :
    (ucFeatures log10f zergTypeList o).length = 88 := by
  simp only [ucFeatures, ucGen, List.length_append, List.length_map]
  decide

theorem usFeatures_length (log10f : ℚ → ℚ) (o : RawObs) :
    (usFeatures log10f o).length = 8 := by
  simp [usFeatures]

theorem playerFeatures_length (log10f : ℚ → ℚ) (o : RawObs)
    (hp : o.player.length = 11) :
    (playerFeatures log10f o).length = 16 := by
  have h1 : ((o.player.drop 1).dropLast.dropLast).length = 8 := by
    rw [List.length_dropLast, List.length_dropLast, List.length_drop, hp]
  simp only [playerFeatures]
  rw [List.length_append, List.length_zipWith, List.length_map, h1]
  decide

theorem diagFlip_shape (pp : ℕ) (f : Feature3D) :
    (diagFlip pp f).chans.length = f.chans.length ∧
    (diagFlip pp f).res = f.res := by
  unfold diagFlip
  split <;> simp

/-- C10: for every raw observation (with the 11-entry pysc2 player
vector) and with no action mask, `_observation` returns a spatial
tensor with exactly 25 channels of extent `R × R` — 22 from
`UnitType3DFeature` (`(10 + 1) * 2`) plus 3 from
`PlayerRelative3DFeature` — and a nonspatial vector with exactly 112
entries (8 unit-stat + 88 unit-count + 16 player), matching the
`observation_space` declared in `__init__`. -/
theorem zerg_observation_space_shapes (log10f : ℚ → ℚ) (R : ℕ)
    (flip : Bool) (player_position : ℕ) (o : RawObs)
    (hp : o.player.length = 11) :
    ((zergObservation log10f R flip player_position o).1.chans.length = 25 ∧
     (zergObservation log10f R flip player_position o).1.res = R ∧
     (zergObservation log10f R flip player_position o).2.length = 112) ∧
    ((utFeatures zergTypeMap R worldSize o).chans.length = 22 ∧
     (prFeatures R worldSize o).chans.length = 3) ∧
    ((zergObservation log10f R flip player_position o).1.chans.length
        = zergNChannels ∧
     (zergObservation log10f R flip player_position o).2.length
        = zergNDims) := by
  have hspatial :
      (concatF3 (prFeatures R worldSize o)
        (utFeatures zergTypeMap R worldSize o)).chans.length = 25 := by
    unfold concatF3
    simp only [List.length_append, (prFeatures_shape R o).1,
      (utFeatures_shape R o).1]
  have hres :
      (concatF3 (prFeatures R worldSize o)
        (utFeatures zergTypeMap R worldSize o)).res = R := by
    unfold concatF3
    exact (prFeatures_shape R o).2
  have hchans :
      (zergObservation log10f R flip player_position o).1.chans.length
        = 25 := by
    unfold zergObservation
    cases flip with
    | false => exact hspatial
    | true =>
      simp only [if_true]
      rw [(diagFlip_shape player_position _).1]
      exact hspatial
  have hresu :
      (zergObservation log10f R flip player_position o).1.res = R := by
    unfold zergObservation
    cases flip with
    | false => exact hres
    | true =>
      simp only [if_true]
      rw [(diagFlip_shape player_position _).2]
      exact hres
  have hnons :
      (zergObservation log10f R flip player_position o).2.length = 112 := by
    unfold zergObservation
    simp only [List.length_append, usFeatures_length,
      ucFeatures_length, playerFeatures_length log10f o hp]
  refine ⟨⟨hchans, hresu, hnons⟩,
    ⟨(utFeatures_shape R o).1, (prFeatures_shape R o).1⟩, ?_, ?_⟩
  · rw [hchans]; decide
  · rw [hnons]; decide

/-- Witness for C10 at a concrete observation. -/
theorem zerg_observation_space_shapes_witness :
    (zergObservation (fun x => x) 4 true 0
        ⟨[], List.replicate 11 0⟩).1.chans.length = 25 ∧
    (zergObservation (fun x => x) 4 true 0
        ⟨[], List.replicate 11 0⟩).2.length = 112 :=
  ⟨((zerg_observation_space_shapes (fun x => x) 4 true 0
      ⟨[], List.replicate 11 0⟩ (by simp)).1).1,
   ((zerg_observation_space_shapes (fun x => x) 4 true 0
      ⟨[], List.replicate 11 0⟩ (by simp)).1).2.2⟩

end TStar
